import Mathlib

/-!
Verification development for the catalyst-pluginizr repository.

The development shallowly embeds the two core subsystems:

* the runtime composition engine (`src/src/registry.ts` in its
  `getPlugins(resourceId, type)` variant, and `src/src/with-plugins.tsx`:
  `getSortedPlugins`, `withPluginsFC`, `withPluginsFn`, `withPluginsVal`);
* the source rewriter (`src/src/loader/pluginizr.ts`: `findUp`,
  `getComponentCode`, `wrapExportedValue`, `handleExport` and friends,
  `pluginizr`) together with the webpack loader wrapper
  (`src/src/loader/loader.ts`).

JavaScript strings are Lean `String`s, JS arrays are Lean lists, the
module-level mutable caches are passed as explicit state, and functions
that can `throw` return `Except String _`.  Plugin behaviours (the
`wrap` callbacks supplied by extension authors) are external inputs to
the engine; they are represented by a small syntax of unary/binary
JavaScript functions (`JsFn`, `FnWrap`) with an evaluator, so that
equality of plugin descriptors stays decidable.
-/

/-- Decidable equality for `Except` results (errors carry messages,
successes carry payloads; both are decidably comparable here). -/
instance {ε α : Type} [DecidableEq ε] [DecidableEq α] : DecidableEq (Except ε α) := fun x y =>
  match x, y with
  | .ok a, .ok b =>
    if h : a = b then isTrue (by rw [h]) else isFalse (fun hc => by cases hc; exact h rfl)
  | .error a, .error b =>
    if h : a = b then isTrue (by rw [h]) else isFalse (fun hc => by cases hc; exact h rfl)
  | .ok _, .error _ => isFalse (fun hc => by cases hc)
  | .error _, .ok _ => isFalse (fun hc => by cases hc)

namespace Pluginizr

/-- A small universe of JavaScript values handled by plugin behaviours. -/
inductive JsVal where
  | undefV : JsVal
  | str : String → JsVal
  | num : Int → JsVal
deriving DecidableEq, Repr

/-- Syntax for the unary JavaScript functions that extension authors may
supply as value-plugin behaviours (and as the pre/post processing of
function-plugin behaviours). -/
inductive JsFn where
  | idF : JsFn
  | constF : JsVal → JsFn
  | ifEqThen : JsVal → JsVal → JsFn
  | appendStr : String → JsFn
  | addNum : Int → JsFn
deriving DecidableEq, Repr

/-- Evaluator for `JsFn`. -/
def evalJsFn : JsFn → JsVal → JsVal
  | .idF, v => v
  | .constF c, _ => c
  | .ifEqThen a b, v => if v = a then b else v
  | .appendStr suffix, v =>
    match v with
    | .str s => .str (s ++ suffix)
    | v => v
  | .addNum n, v =>
    match v with
    | .num m => .num (m + n)
    | v => v

/-- A function-plugin behaviour `wrap(next, ...args)`: it either invokes
the next-stage callable it receives (transforming the argument before and
the result after), or it does not invoke it at all and produces its own
result from the argument. -/
inductive FnWrap where
  | callNext (pre post : JsFn) : FnWrap
  | skipNext (f : JsFn) : FnWrap
deriving DecidableEq, Repr

/-- The `wrap` field of a registered plugin descriptor.  Component wraps
receive props plus the injected wrapped component; their render behaviour
is irrelevant to the wrapping-structure properties proved here, so they
carry no payload. -/
inductive PluginWrap where
  | componentW : PluginWrap
  | functionW : FnWrap → PluginWrap
  | valueW : JsFn → PluginWrap
deriving DecidableEq, Repr

/-- Model of `EPluginType` from `types.ts`. -/
inductive EPluginType where
  | component : EPluginType
  | function : EPluginType
  | value : EPluginType
deriving DecidableEq, Repr

/-- The string value of an `EPluginType` member (the enum is
string-valued in the source: `'component' | 'function' | 'value'`). -/
def pluginTypeStr : EPluginType → String
  | .component => "component"
  | .function => "function"
  | .value => "value"

/-- Model of `CatalystPlugin` from `types.ts`: descriptor of one registered
extension.  `sortOrder` is optional (`sortOrder?: number`). -/
structure CatalystPlugin where
  resourceId : String
  sortOrder : Option Int
  name : String
  type : EPluginType
  wrap : PluginWrap
deriving DecidableEq, Repr

/-- Model of `componentPlugin` factory from `registry.ts`: tags a descriptor with
`EPluginType.Component`. -/
def componentPlugin (resourceId : String) (sortOrder : Option Int) (name : String) :
    CatalystPlugin :=
  ⟨resourceId, sortOrder, name, .component, .componentW⟩

/-- Model of `functionPlugin` factory from `registry.ts`: tags a descriptor with
`EPluginType.Function`. -/
def functionPlugin (resourceId : String) (sortOrder : Option Int) (name : String)
    (w : FnWrap) : CatalystPlugin :=
  ⟨resourceId, sortOrder, name, .function, .functionW w⟩

/-- Model of `valuePlugin` factory from `registry.ts`: tags a descriptor with
`EPluginType.Value`. -/
def valuePlugin (resourceId : String) (sortOrder : Option Int) (name : String)
    (f : JsFn) : CatalystPlugin :=
  ⟨resourceId, sortOrder, name, .value, .valueW f⟩

/-- The module-level `plugins: Record<string, CatalystPlugin[]>` storage
of `registry.ts`, as an association list. -/
abbrev Registry := List (String × List CatalystPlugin)

/-- Model of `plugins[resourceId] ?? []`. -/
def regGet (reg : Registry) (resourceId : String) : List CatalystPlugin :=
  match reg.find? (fun e => e.1 = resourceId) with
  | some e => e.2
  | none => []

/-- Registration (`plugins[plugin.resourceId] ??= [];
plugins[plugin.resourceId].push(plugin)`). -/
def registerPlugin (reg : Registry) (p : CatalystPlugin) : Registry :=
  if reg.any (fun e => e.1 = p.resourceId) then
    reg.map (fun e => if e.1 = p.resourceId then (e.1, e.2 ++ [p]) else e)
  else
    reg ++ [(p.resourceId, [p])]

/-- The relevant values of `process.env.NODE_ENV`. -/
inductive NodeEnv where
  | production : NodeEnv
  | development : NodeEnv
  | test : NodeEnv
deriving DecidableEq, Repr

/-- Model of `getPlugins(resourceId, type)` from `registry.ts`: returns the
entries registered for `resourceId` whose `type` matches, and (in
development builds) one `console.error` line per mismatching entry.
The returned strings model the `console.error` output. -/
def getPlugins (env : NodeEnv) (reg : Registry) (resourceId : String)
    (type : EPluginType) : List CatalystPlugin × List String :=
  let res := regGet reg resourceId
  let logs :=
    if env = .development then
      (res.filter (fun p => ¬(p.type = type))).map (fun p =>
        "Plugin type mismatch for " ++ p.resourceId ++ "(" ++ p.name ++
          "). Expected " ++ pluginTypeStr type ++ ", got " ++ pluginTypeStr p.type ++ ".")
    else []
  (res.filter (fun p => p.type = type), logs)

/-- Model of `a.sortOrder ?? 0`, the sort key used by `getSortedPlugins`. -/
def sortKey (p : CatalystPlugin) : Int :=
  p.sortOrder.getD 0

/-- The ascending, stable sort performed by
`plugins.sort((a, b) => (a.sortOrder ?? 0) - (b.sortOrder ?? 0))`. -/
def sortPlugins (ps : List CatalystPlugin) : List CatalystPlugin :=
  List.insertionSort (fun a b => sortKey a ≤ sortKey b) ps

/-- The module-level `pluginsCache: Map<string, CatalystPlugin[]>` of
`with-plugins.tsx`, passed around as explicit state. -/
abbrev PluginsCache := List (String × List CatalystPlugin)

/-- Model of `pluginsCache.has(resourceId)`. -/
def cacheHas (cache : PluginsCache) (resourceId : String) : Bool :=
  cache.any (fun e => e.1 = resourceId)

/-- Model of `pluginsCache.get(resourceId)!`. -/
def cacheGet (cache : PluginsCache) (resourceId : String) : List CatalystPlugin :=
  match cache.find? (fun e => e.1 = resourceId) with
  | some e => e.2
  | none => []

/-- Model of `pluginsCache.set(resourceId, plugins)`. -/
def cacheSet (cache : PluginsCache) (resourceId : String)
    (ps : List CatalystPlugin) : PluginsCache :=
  if cache.any (fun e => e.1 = resourceId) then
    cache.map (fun e => if e.1 = resourceId then (e.1, ps) else e)
  else
    cache ++ [(resourceId, ps)]

/-- Model of `getSortedPlugins(resourceId, type)` from `with-plugins.tsx`.  The
cache is keyed by `resourceId` alone and is consulted only when
`NODE_ENV === 'production'`.  (`.slice()` clones the array before the
in-place sort; lists are immutable here, so the clone is a no-op.  The
development-mode `console.error` output of `getPlugins` is a side effect
that does not influence the returned data and is dropped here.) -/
def getSortedPlugins (env : NodeEnv) (reg : Registry) (cache : PluginsCache)
    (resourceId : String) (type : EPluginType) :
    List CatalystPlugin × PluginsCache :=
  if env = .production ∧ cacheHas cache resourceId then
    (cacheGet cache resourceId, cache)
  else
    let plugins := sortPlugins (getPlugins env reg resourceId type).1
    (plugins, cacheSet cache resourceId plugins)

/-- JavaScript `a || b` for the string-or-undefined values used in the
`displayName` computation (`''` and `undefined` are falsy). -/
def jsOrS (a : Option String) (b : String) : String :=
  match a with
  | some s => if s = "" then b else s
  | none => b

/-- A React component value, as far as the wrapping structure is
concerned: either an original component, or one of the `PluginWrapper`
closures built by `withPluginsFC` (which captures the plugin descriptor
and the next-inner enhanced component). -/
inductive ComponentVal where
  | original (displayName : Option String) (fnName : String) : ComponentVal
  | wrapper (displayName : Option String) (plugin : CatalystPlugin)
      (inner : ComponentVal) : ComponentVal
deriving DecidableEq, Repr

/-- Model of `X.displayName` (possibly `undefined`). -/
def compDisplayName : ComponentVal → Option String
  | .original d _ => d
  | .wrapper d _ _ => d

/-- Model of `X.name` for a component value: original components have their
function name; the `PluginWrapper` arrow functions get the inferred
name `'PluginWrapper'`. -/
def compFnName : ComponentVal → String
  | .original _ n => n
  | .wrapper _ _ _ => "PluginWrapper"

/-- Model of `X.displayName = s` (mutation of the outermost component object). -/
def setDisplayName (s : String) : ComponentVal → ComponentVal
  | .original _ n => .original (some s) n
  | .wrapper _ p inner => .wrapper (some s) p inner

/-- Model of `withPluginsFC(component, WrappedComponent)` from
`with-plugins.tsx`.  Returns the enhanced component and the updated
plugins cache. -/
def withPluginsFC (env : NodeEnv) (reg : Registry) (cache : PluginsCache)
    (component : String) (WrappedComponent : ComponentVal) :
    ComponentVal × PluginsCache :=
  let displayName :=
    jsOrS (compDisplayName WrappedComponent)
      (jsOrS (some (compFnName WrappedComponent)) "Component")
  let (plugins, cache') := getSortedPlugins env reg cache component .component
  if plugins.length = 0 then
    (WrappedComponent, cache')
  else
    let WithPlugins := plugins.foldl
      (fun EnhancedComponent plugin =>
        ComponentVal.wrapper (some ("PluginWrapper(" ++ plugin.name ++ ")"))
          plugin EnhancedComponent)
      WrappedComponent
    (setDisplayName ("WithPlugins(" ++ displayName ++ ")") WithPlugins, cache')

/-- The sortOrder keys of the wrapper chain of a composed component,
outermost first. -/
def wrapperSortOrders : ComponentVal → List Int
  | .original _ _ => []
  | .wrapper _ p inner => sortKey p :: wrapperSortOrders inner

/-- A JavaScript function object, as far as reference identity and call
behaviour are concerned.  `base` is a pre-existing function (the module's
original export); `pluginized` is the fresh arrow-function closure that
`withPluginsFn` allocates (it captures the `functionId` and the wrapped
function). -/
inductive FnArtifact where
  | base (name : String) (f : JsFn) : FnArtifact
  | pluginized (functionId : String) (wrapped : FnArtifact) : FnArtifact
deriving DecidableEq, Repr

/-- Model of `withPluginsFn(functionId, wrapped)` from `with-plugins.tsx`: it
returns a freshly created closure unconditionally — the plugin lookup
happens later, on each invocation of that closure. -/
def withPluginsFn (functionId : String) (wrapped : FnArtifact) : FnArtifact :=
  .pluginized functionId wrapped

/-- One step of the per-invocation chain
`plugins.reduce((acc, plugin) => (...args) => plugin.wrap(acc, ...args), wrapped)`.
Results carry the updated cache and the trace of executed stages (an
instrumentation layer recording which plugin wraps ran).  A plugin whose
`wrap` is not a function-plugin behaviour cannot invoke its next stage
(it is not handed one it understands); kind-matched registration never
produces such an entry in a function chain. -/
def chainStep (plugin : CatalystPlugin)
    (acc : JsVal → PluginsCache → JsVal × PluginsCache × List String)
    (x : JsVal) (cache : PluginsCache) : JsVal × PluginsCache × List String :=
  match plugin.wrap with
  | .functionW (.callNext pre post) =>
    let (r, cache', tr) := acc (evalJsFn pre x) cache
    (evalJsFn post r, cache', plugin.name :: tr)
  | .functionW (.skipNext f) => (evalJsFn f x, cache, [plugin.name])
  | _ => (.undefV, cache, [plugin.name])

/-- The reduce-built invocation chain of `withPluginsFn`: fold the
sorted plugin list over the call into the wrapped function. -/
def runChain (plugins : List CatalystPlugin)
    (inner : JsVal → PluginsCache → JsVal × PluginsCache × List String) :
    JsVal → PluginsCache → JsVal × PluginsCache × List String :=
  plugins.foldl (fun acc plugin => chainStep plugin acc) inner

/-- Invoking a function artifact on one argument.  For a `pluginized`
closure this is the body of the arrow function returned by
`withPluginsFn`: look up and sort the plugins for `functionId` now, call
the original directly if there are none, and otherwise run the
reduce-built chain seeded with the wrapped function.  The trace records
the executed plugin wraps and, for a `base` function, its name (so that
execution of the original is observable). -/
def callFn (env : NodeEnv) (reg : Registry) :
    FnArtifact → JsVal → PluginsCache → JsVal × PluginsCache × List String
  | .base name f => fun x cache => (evalJsFn f x, cache, [name])
  | .pluginized functionId wrapped => fun x cache =>
    let (plugins, cache') := getSortedPlugins env reg cache functionId .function
    if plugins.length = 0 then
      callFn env reg wrapped x cache'
    else
      runChain plugins (callFn env reg wrapped) x cache'

/-- One step of the eager value fold
`plugins.reduce((enhancedValue, plugin) => plugin.wrap(enhancedValue), value)`. -/
def valueStep (enhancedValue : JsVal) (plugin : CatalystPlugin) : JsVal :=
  match plugin.wrap with
  | .valueW f => evalJsFn f enhancedValue
  | _ => .undefV

/-- Model of `withPluginsVal(valueId, value)` from `with-plugins.tsx`: folds the
sorted plugin list over the value eagerly, once, at composition time. -/
def withPluginsVal (env : NodeEnv) (reg : Registry) (cache : PluginsCache)
    (valueId : String) (value : JsVal) : JsVal × PluginsCache :=
  let (plugins, cache') := getSortedPlugins env reg cache valueId .value
  if plugins.length = 0 then
    (value, cache')
  else
    (plugins.foldl valueStep value, cache')

/-! ### Source rewriter: paths, filesystem and the resource-id resolver
(`src/src/loader/pluginizr.ts`) -/

/-- An absolute POSIX path, as its list of segments below the
filesystem root (`[]` is `/`). -/
abbrev PathT := List String

/-- Renders a `PathT` the way the loader sees paths. -/
def pathToString (p : PathT) : String :=
  "/" ++ String.intercalate "/" p

/-- Model of `path.dirname`. -/
def pathDirname (p : PathT) : PathT :=
  p.dropLast

/-- The filesystem as the rewriter reads it: which files exist, and the
parsed content of manifest/config files (`JSON.parse(readFileSync(..))`):
the `name` field of a `package.json` and the `compilerOptions.baseUrl`
field of a `tsconfig.json`, each `none` when the field is absent. -/
structure FileSystem where
  files : List PathT
  pkgName : PathT → Option String
  tsBaseUrl : PathT → Option String

/-- Fuel-indexed body of `findUp` (the fuel is the starting directory
depth, which bounds the `while (dir !== root)` walk; it decreases by one
per `path.dirname` step, making the loop structurally recursive). -/
def findUpGo (fs : FileSystem) (filename : String) : Nat → PathT → Option PathT
  | _, [] => none
  | 0, _ :: _ => none
  | fuel + 1, dir =>
    let candidate := dir ++ [filename]
    if candidate ∈ fs.files then some candidate
    else findUpGo fs filename fuel (pathDirname dir)

/-- Model of `findUp(filename, startDir)`: walk up from `startDir`, checking each
directory strictly above the filesystem root (the root itself is never
checked: the loop exits once `dir === path.parse(dir).root`). -/
def findUp (fs : FileSystem) (filename : String) (startDir : PathT) : Option PathT :=
  findUpGo fs filename startDir.length startDir

/-- Model of `getPackageName(packageJsonPath)`: `pkg.name || 'unknown-package'`
(the per-path memo cache is observationally pure and omitted). -/
def getPackageName (fs : FileSystem) (packageJsonPath : PathT) : String :=
  jsOrS (fs.pkgName packageJsonPath) "unknown-package"

/-- Model of `getBaseUrl(tsconfigPath)`:
`tsconfig.compilerOptions?.baseUrl || null` (memo cache omitted). -/
def getBaseUrl (fs : FileSystem) (tsconfigPath : Option PathT) : Option String :=
  match tsconfigPath with
  | none => none
  | some p =>
    match fs.tsBaseUrl p with
    | some s => if s = "" then none else some s
    | none => none

/-- List-level split of a string at `/` (JavaScript `s.split('/')`,
also `String.splitOn "/"`). -/
def splitSlashGo (acc : List Char) : List Char → List String
  | [] => [String.mk acc.reverse]
  | c :: cs =>
    if c = '/' then String.mk acc.reverse :: splitSlashGo [] cs
    else splitSlashGo (c :: acc) cs

/-- JavaScript `s.split('/')`. -/
def splitSlash (s : String) : List String :=
  splitSlashGo [] s.data

/-- Model of `removeExtension`: strips a final `.js`/`.ts`/`.jsx`/`.tsx`
(the regex `\.[jt]sx?$`). -/
def removeExtension (filePath : String) : String :=
  if ".tsx".data.isSuffixOf filePath.data ∨ ".jsx".data.isSuffixOf filePath.data then
    String.mk (filePath.data.take (filePath.data.length - 4))
  else if ".ts".data.isSuffixOf filePath.data ∨ ".js".data.isSuffixOf filePath.data then
    String.mk (filePath.data.take (filePath.data.length - 3))
  else filePath

/-- Drops the common leading segments of two absolute paths (the heart
of `path.relative` on two resolved absolute paths). -/
def stripCommon : PathT → PathT → PathT × PathT
  | a :: as, b :: bs => if a = b then stripCommon as bs else (a :: as, b :: bs)
  | as, bs => (as, bs)

/-- Model of `path.relative(fromDir, toPath)` for absolute inputs: strip the
common root, then one `..` per remaining `fromDir` segment followed by
the remaining target segments. -/
def pathRelative (fromDir toPath : PathT) : List String :=
  let (f, t) := stripCommon fromDir toPath
  List.replicate f.length ".." ++ t

/-- Model of `path.join(projectDir, relSpec)` for a relative specifier such as a
`baseUrl` (empty and `.` segments collapse, `..` pops). -/
def joinPath (dir : PathT) (relSpec : String) : PathT :=
  (splitSlash relSpec).foldl
    (fun acc seg =>
      if seg = "" ∨ seg = "." then acc
      else if seg = ".." then acc.dropLast
      else acc ++ [seg])
    dir

/-- Model of `relativePathWithoutBaseUrl(fileFullPath, projectDir, baseUrl)`:
path relative to `projectDir` + `baseUrl`, joined with `/`. -/
def relativePathWithoutBaseUrl (fileFullPath : PathT) (projectDir : PathT)
    (baseUrl : Option String) : String :=
  String.intercalate "/" (pathRelative (joinPath projectDir (baseUrl.getD "")) fileFullPath)

/-- Model of `getComponentCode(filename, identifierName, isDefaultExport)`: the
resource-id resolver.  Throws (`Except.error`) when no `package.json` is
found up the tree.  (The `path.isAbsolute` branch is skipped because
paths are modeled absolute, and `getProjectRootFromPackageJson` is
`path.dirname`.) -/
def getComponentCode (fs : FileSystem) (filename : PathT) (identifierName : String)
    (isDefaultExport : Bool) : Except String String :=
  match findUp fs "package.json" (pathDirname filename) with
  | none => .error ("No package.json was found for " ++ pathToString filename)
  | some packageJsonPath =>
    let tsconfigPath := findUp fs "tsconfig.json" (pathDirname filename)
    let packageName := getPackageName fs packageJsonPath
    let baseUrl := getBaseUrl fs tsconfigPath
    let projectRoot := pathDirname packageJsonPath
    let relativePath := relativePathWithoutBaseUrl filename projectRoot baseUrl
    let relativePathNoExt := removeExtension relativePath
    let parts := splitSlash relativePathNoExt
    let parts := if parts.getLast? = some "index" then parts.dropLast else parts
    let joined := String.intercalate "/" parts
    .ok (if isDefaultExport then packageName ++ "/" ++ joined
         else packageName ++ "/" ++ joined ++ ":" ++ identifierName)

/-! ### Source rewriter: module AST, per-export wrapping and `pluginizr` -/

/-- The expressions the rewriter distinguishes.  Function expressions
carry whether their body contains JSX (the one fact
`isReactComponentFunction` extracts) and whether the body is already a
block statement (the one fact `normalizeFunctionBody` changes).  Call
expressions are modeled with the two-argument shape the rewriter emits,
`callee(pluginRef, arg)`; any call expression is a non-function node to
`wrapExportedValue`. -/
inductive Expr where
  | ident (name : String) : Expr
  | numLit (n : Int) : Expr
  | strLit (s : String) : Expr
  | arrowFn (hasJSX : Bool) (blockBody : Bool) : Expr
  | funcExpr (hasJSX : Bool) (blockBody : Bool) : Expr
  | call (callee : String) (pluginRef : String) (arg : Expr) : Expr
deriving DecidableEq, Repr

/-- The top-level statements the rewriter distinguishes.  Variable
declarations are modeled with a single declarator. -/
inductive Stmt where
  | importDecl (defaultName : Option String) (named : List String) (source : String) : Stmt
  | varDecl (name : String) (init : Expr) : Stmt
  | exportVarDecl (name : String) (init : Expr) : Stmt
  | funcDecl (name : String) (hasJSX : Bool) (blockBody : Bool) : Stmt
  | exportFuncDecl (name : String) (hasJSX : Bool) (blockBody : Bool) : Stmt
  | exportDefaultExpr (e : Expr) : Stmt
  | exportDefaultFunc (hasJSX : Bool) (blockBody : Bool) : Stmt
deriving DecidableEq, Repr

/-- A module. -/
abbrev Program := List Stmt

/-- One entry of the discovery output `getPluginizedComponents()`: the
aggregator info stored under a resource id (only its `hash` matters to
the emitted code). -/
structure PluginInfo where
  hash : String
deriving DecidableEq, Repr

/-- The discovery output: resource id → aggregator info, when that id
has registered extensions. -/
abbrev PluginizedMap := String → Option PluginInfo

/-- Result of wrapping one export: the replacement expression and the
generated-module import to unshift
(`createPluginModuleImport`: `import <hash> from
'@thebigrick/catalyst-pluginizr/generated/<hash>'`). -/
structure WrapResult where
  node : Expr
  importDecl : Stmt
deriving DecidableEq, Repr

/-- Model of `wrapExportedValue(node, identifierName, filename, isDefaultExport,
loader)`.  Returns `none` when the resource id has no registered
extensions (`!pluginInfo`).  The `loader.addDependency` /
`addMissingDependency` calls register watch dependencies with the build
pipeline and do not affect the emitted code; they are omitted. -/
def wrapExportedValue (fs : FileSystem) (plz : PluginizedMap) (file : PathT)
    (node : Expr) (identifierName : String) (isDefaultExport : Bool) :
    Except String (Option WrapResult) :=
  match getComponentCode fs file identifierName isDefaultExport with
  | .error e => .error e
  | .ok componentCode =>
    match plz componentCode with
    | none => .ok none
    | some pluginInfo =>
      let identifier := pluginInfo.hash
      let importDecl := Stmt.importDecl (some identifier) []
        ("@thebigrick/catalyst-pluginizr/generated/" ++ pluginInfo.hash)
      match node with
      | .arrowFn hasJSX _ =>
        -- isReactComponentFunction on the clone, then normalizeFunctionBody
        -- (the emitted function body is always in block form)
        .ok (some ⟨.call (if hasJSX then "withComponentPlugins" else "withFunctionPlugins")
          identifier (.arrowFn hasJSX true), importDecl⟩)
      | .funcExpr hasJSX _ =>
        .ok (some ⟨.call (if hasJSX then "withComponentPlugins" else "withFunctionPlugins")
          identifier (.funcExpr hasJSX true), importDecl⟩)
      | node =>
        .ok (some ⟨.call "withValuePlugins" identifier node, importDecl⟩)

/-- Model of `decl.scope.getBinding(name)`: index of the module-scope statement
that declares `name`. -/
def findBindingIdx (prog : Program) (name : String) : Option Nat :=
  prog.findIdx? fun st =>
    match st with
    | .varDecl n _ => n = name
    | .exportVarDecl n _ => n = name
    | .funcDecl n _ _ => n = name
    | .exportFuncDecl n _ _ => n = name
    | _ => false

/-- The statement-visiting pass of `pluginizr` (the first `traverse`
with the `ExportNamedDeclaration` / `ExportDefaultDeclaration` visitors,
dispatching through `handleExport` into `handleVariableDeclaration`,
`handleNamedReference` and `handleDirectExport`).  `i` is the statement
being visited; `imps` accumulates the unshifted generated-module imports
(newest first, matching repeated `unshift`); `plgd` is `isPluginized`.
The fuel starts at `prog.length`; replacements are one-for-one, so
positions are stable. -/
def pluginizrLoop (fs : FileSystem) (plz : PluginizedMap) (file : PathT) :
    Nat → Nat → Program → List Stmt → Bool →
    Except String (Program × List Stmt × Bool)
  | 0, _, prog, imps, plgd => .ok (prog, imps, plgd)
  | fuel + 1, i, prog, imps, plgd =>
    match prog[i]? with
    | none => .ok (prog, imps, plgd)
    | some stmt =>
      match stmt with
      | .exportVarDecl n init =>
        -- export const n = init  (handleVariableDeclaration)
        match wrapExportedValue fs plz file init n false with
        | .error e => .error e
        | .ok none => pluginizrLoop fs plz file fuel (i + 1) prog imps plgd
        | .ok (some r) =>
          pluginizrLoop fs plz file fuel (i + 1)
            (prog.set i (.exportVarDecl n r.node)) (r.importDecl :: imps) true
      | .exportFuncDecl n hasJSX blockBody =>
        -- export function n() {..}  (handleDirectExport, named):
        -- replaced by `export const n = <wrapped>`
        match wrapExportedValue fs plz file (.funcExpr hasJSX blockBody) n false with
        | .error e => .error e
        | .ok none => pluginizrLoop fs plz file fuel (i + 1) prog imps plgd
        | .ok (some r) =>
          pluginizrLoop fs plz file fuel (i + 1)
            (prog.set i (.exportVarDecl n r.node)) (r.importDecl :: imps) true
      | .exportDefaultFunc hasJSX blockBody =>
        -- export default function() {..}  (handleDirectExport, default)
        match wrapExportedValue fs plz file (.funcExpr hasJSX blockBody) "" true with
        | .error e => .error e
        | .ok none => pluginizrLoop fs plz file fuel (i + 1) prog imps plgd
        | .ok (some r) =>
          pluginizrLoop fs plz file fuel (i + 1)
            (prog.set i (.exportDefaultExpr r.node)) (r.importDecl :: imps) true
      | .exportDefaultExpr (.ident n) =>
        -- export default n  (handleNamedReference): rewrite the
        -- referenced binding in place, leaving the export statement as is
        match findBindingIdx prog n with
        | none => pluginizrLoop fs plz file fuel (i + 1) prog imps plgd
        | some j =>
          match prog[j]? with
          | some (.varDecl m init) =>
            match wrapExportedValue fs plz file init "" true with
            | .error e => .error e
            | .ok none => pluginizrLoop fs plz file fuel (i + 1) prog imps plgd
            | .ok (some r) =>
              pluginizrLoop fs plz file fuel (i + 1)
                (prog.set j (.varDecl m r.node)) (r.importDecl :: imps) true
          | some (.exportVarDecl m init) =>
            match wrapExportedValue fs plz file init "" true with
            | .error e => .error e
            | .ok none => pluginizrLoop fs plz file fuel (i + 1) prog imps plgd
            | .ok (some r) =>
              pluginizrLoop fs plz file fuel (i + 1)
                (prog.set j (.exportVarDecl m r.node)) (r.importDecl :: imps) true
          | some (.funcDecl m hasJSX blockBody) =>
            -- binding.path.replaceWith(const m = <wrapped>)
            match wrapExportedValue fs plz file (.funcExpr hasJSX blockBody) "" true with
            | .error e => .error e
            | .ok none => pluginizrLoop fs plz file fuel (i + 1) prog imps plgd
            | .ok (some r) =>
              pluginizrLoop fs plz file fuel (i + 1)
                (prog.set j (.varDecl m r.node)) (r.importDecl :: imps) true
          | some (.exportFuncDecl m hasJSX blockBody) =>
            match wrapExportedValue fs plz file (.funcExpr hasJSX blockBody) "" true with
            | .error e => .error e
            | .ok none => pluginizrLoop fs plz file fuel (i + 1) prog imps plgd
            | .ok (some r) =>
              pluginizrLoop fs plz file fuel (i + 1)
                (prog.set j (.exportVarDecl m r.node)) (r.importDecl :: imps) true
          | _ => pluginizrLoop fs plz file fuel (i + 1) prog imps plgd
      | .exportDefaultExpr e =>
        -- export default <expr>  (handleDirectExport, default)
        match wrapExportedValue fs plz file e "" true with
        | .error e => .error e
        | .ok none => pluginizrLoop fs plz file fuel (i + 1) prog imps plgd
        | .ok (some r) =>
          pluginizrLoop fs plz file fuel (i + 1)
            (prog.set i (.exportDefaultExpr r.node)) (r.importDecl :: imps) true
      | _ => pluginizrLoop fs plz file fuel (i + 1) prog imps plgd

/-- Whether the module already has a named import of `name` from the
composition entry-point module (the second `traverse`, over
`ImportDeclaration`s).  Generated-module imports use a different source
string, so scanning the pre-existing statements is equivalent. -/
def hasEntrySpecifier (prog : Program) (name : String) : Bool :=
  prog.any fun st =>
    match st with
    | .importDecl _ named src => src == "@thebigrick/catalyst-pluginizr" && named.contains name
    | _ => false

/-- Model of `pluginizr(code, sourcePath, loader)`: the module rewrite.  When no
export was pluginized the original module is returned unchanged
(`return code`); otherwise the missing entry-point import specifiers are
unshifted above the accumulated generated-module imports. -/
def pluginizrFn (fs : FileSystem) (plz : PluginizedMap) (file : PathT)
    (prog : Program) : Except String Program :=
  match pluginizrLoop fs plz file prog.length 0 prog [] false with
  | .error e => .error e
  | .ok (prog', imps, isPluginized) =>
    if isPluginized then
      let specifiers :=
        (if hasEntrySpecifier prog' "withComponentPlugins" then [] else ["withComponentPlugins"]) ++
        (if hasEntrySpecifier prog' "withFunctionPlugins" then [] else ["withFunctionPlugins"]) ++
        (if hasEntrySpecifier prog' "withValuePlugins" then [] else ["withValuePlugins"])
      if specifiers.length > 0 then
        .ok (Stmt.importDecl none specifiers "@thebigrick/catalyst-pluginizr" :: (imps ++ prog'))
      else
        .ok (imps ++ prog')
    else
      .ok prog

/-! ### The webpack loader wrapper (`src/src/loader/loader.ts`) -/

/-- The single-quote character (char code 39). -/
def squote : Char := Char.ofNat 39

/-- Matches a literal off the front of a character list. -/
def dropLit? : List Char → List Char → Option (List Char)
  | [], cs => some cs
  | _, [] => none
  | l :: ls, c :: cs => if c = l then dropLit? ls cs else none

/-- JavaScript `\s` on the ASCII range (space, tab, line feed, vertical
tab, form feed, carriage return). -/
def jsWsChar (c : Char) : Bool :=
  c = ' ' ∨ c = '\t' ∨ c = '\n' ∨ c = '\x0b' ∨ c = '\x0c' ∨ c = '\r'

/-- Model of `inputCode.search(/^['"]use\s*no-plugins['"]\s*;?\s*$/) !== -1`.
Without the multiline flag, `^` matches only at the start of the input
and `$` only at its very end, so the test succeeds exactly when the
whole input is one opt-out directive (with optional trailing semicolon
and whitespace). -/
def useNoPluginsDirective (s : String) : Bool :=
  match s.data with
  | [] => false
  | q :: rest =>
    if q = squote ∨ q = '"' then
      match dropLit? "use".data rest with
      | none => false
      | some r1 =>
        match dropLit? "no-plugins".data (r1.dropWhile jsWsChar) with
        | none => false
        | some r2 =>
          match r2 with
          | [] => false
          | q2 :: r3 =>
            if q2 = squote ∨ q2 = '"' then
              let r4 := r3.dropWhile jsWsChar
              let r5 := match r4 with
                | c :: t => if c = ';' then t else c :: t
                | [] => []
              (r5.dropWhile jsWsChar).isEmpty
            else false
    else false

/-- Does `hay` start with `needle`? -/
def listStartsWith : List Char → List Char → Bool
  | [], _ => true
  | _ :: _, [] => false
  | n :: ns, h :: hs => n == h && listStartsWith ns hs

/-- Does `needle` occur contiguously inside `hay`? -/
def listContainsSub (needle : List Char) : List Char → Bool
  | [] => needle.isEmpty
  | h :: hs => listStartsWith needle (h :: hs) || listContainsSub needle hs

/-- JavaScript `s.includes(sub)`. -/
def strContains (hay needle : String) : Bool :=
  listContainsSub needle.data hay.data

/-- Model of `resourcePath.replace(/\\/g, '/')`. -/
def backslashesToSlashes (s : String) : String :=
  String.mk (s.data.map fun c => if c = '\\' then '/' else c)

/-- The eligibility test of the loader: a module is passed through
unchanged when it is the opt-out directive, sits under `node_modules`,
is a type-declaration file, or belongs to the pluginizr package itself. -/
def loaderSkip (inputCode : String) (resourcePath : String) : Bool :=
  useNoPluginsDirective inputCode ||
  strContains (backslashesToSlashes resourcePath) "/node_modules/" ||
  ".d.ts".data.isSuffixOf resourcePath.data ||
  strContains (backslashesToSlashes resourcePath) "/packages/catalyst-pluginizr/"

/-- What the loader hands back to webpack through `callback`. -/
inductive LoaderResult where
  | passthrough : LoaderResult
  | transformed (out : Program) : LoaderResult
  | failed (msg : String) : LoaderResult
deriving DecidableEq, Repr

/-- The loader body (`loader.ts`): skip ineligible modules, otherwise
run `pluginizr` and forward its output, converting a thrown error into a
failed callback.  `prog` is the parse of `inputCode` and `file` the
segment form of `resourcePath` (the babel parse itself is not modeled). -/
def loader (fs : FileSystem) (plz : PluginizedMap) (resourcePath : String)
    (file : PathT) (inputCode : String) (prog : Program) : LoaderResult :=
  if loaderSkip inputCode resourcePath then .passthrough
  else
    match pluginizrFn fs plz file prog with
    | .ok result => .transformed result
    | .error e => .failed e

/-! ### Auxiliary notions and concrete fixtures used by the theorems -/

/-- Whether a chain stage does not invoke the next-stage callable it
receives (a `skipNext` behaviour, or a wrap that is not a
function-plugin behaviour at all and hence cannot call into the chain). -/
def isSkipWrap (p : CatalystPlugin) : Bool :=
  match p.wrap with
  | .functionW (.callNext _ _) => false
  | _ => true

/-- The names of the stages of a chain that execute when it is entered
from its head: every stage up to and including the first one that does
not invoke its next stage. -/
def upToFirstSkip : List CatalystPlugin → List String
  | [] => []
  | p :: rest => if isSkipWrap p then [p.name] else p.name :: upToFirstSkip rest

/-- The sort relation of `sortPlugins` is total. -/
instance : IsTotal CatalystPlugin (fun a b => sortKey a ≤ sortKey b) :=
  ⟨fun a b => Int.le_total (sortKey a) (sortKey b)⟩

/-- The sort relation of `sortPlugins` is transitive. -/
instance : IsTrans CatalystPlugin (fun a b => sortKey a ≤ sortKey b) :=
  ⟨fun _ _ _ h₁ h₂ => le_trans h₁ h₂⟩

/-- A workspace with one package `pkg` whose manifest sits at
`/pkg/package.json` and which has no `tsconfig.json`. -/
def fsDemo : FileSystem :=
  ⟨[["pkg", "package.json"]],
   fun p => if p = ["pkg", "package.json"] then some "pkg" else none,
   fun _ => none⟩

/-- A workspace with no manifest anywhere. -/
def fsBare : FileSystem := ⟨[], fun _ => none, fun _ => none⟩

/-- The example workspace of the resolver test: package `acme` rooted at
`/pkg-root` with `baseUrl: "src"`. -/
def fsAcme : FileSystem :=
  ⟨[["pkg-root", "package.json"], ["pkg-root", "tsconfig.json"]],
   fun p => if p = ["pkg-root", "package.json"] then some "acme" else none,
   fun p => if p = ["pkg-root", "tsconfig.json"] then some "src" else none⟩

/-- Discovery output: the resource id `pkg/src/file` has registered
extensions, aggregated under hash `h4f3a2b1`. -/
def plzDemo : PluginizedMap :=
  fun c => if c = "pkg/src/file" then some ⟨"h4f3a2b1"⟩ else none

/-- The path `/pkg/src/file.ts`. -/
def fileDemo : PathT := ["pkg", "src", "file.ts"]

/-- A module with a single default export of a plain value. -/
def progDemo : Program := [.exportDefaultExpr (.numLit 5)]

/-- The output of one rewriter pass over `progDemo` (entry-point import,
generated-module import, wrapped default export). -/
def progDemoOnce : Program :=
  [.importDecl none ["withComponentPlugins", "withFunctionPlugins", "withValuePlugins"]
     "@thebigrick/catalyst-pluginizr",
   .importDecl (some "h4f3a2b1") [] "@thebigrick/catalyst-pluginizr/generated/h4f3a2b1",
   .exportDefaultExpr (.call "withValuePlugins" "h4f3a2b1" (.numLit 5))]

/-- The output of a second rewriter pass over `progDemoOnce`: the
already-wrapped default export (a call expression) is wrapped again as a
value, and a second copy of the generated-module import is unshifted. -/
def progDemoTwice : Program :=
  [.importDecl (some "h4f3a2b1") [] "@thebigrick/catalyst-pluginizr/generated/h4f3a2b1",
   .importDecl none ["withComponentPlugins", "withFunctionPlugins", "withValuePlugins"]
     "@thebigrick/catalyst-pluginizr",
   .importDecl (some "h4f3a2b1") [] "@thebigrick/catalyst-pluginizr/generated/h4f3a2b1",
   .exportDefaultExpr (.call "withValuePlugins" "h4f3a2b1"
     (.call "withValuePlugins" "h4f3a2b1" (.numLit 5)))]

/-- Three component extensions for resource id `r` with sortOrders 0,
10, −10, registered in that (non-ascending) order. -/
def regThree : Registry :=
  registerPlugin
    (registerPlugin (registerPlugin [] (componentPlugin "r" (some 0) "b"))
      (componentPlugin "r" (some 10) "c"))
    (componentPlugin "r" (some (-10)) "a")

/-- A resource id `r` carrying one component-kind and one function-kind
extension. -/
def regMixed : Registry :=
  registerPlugin (registerPlugin [] (componentPlugin "r" (some 0) "comp-ext"))
    (functionPlugin "r" (some 0) "fn-ext" (.callNext .idF .idF))

/-- Two function extensions for `fid`: `low` (sortOrder 0) never invokes
its inner stage, `high` (sortOrder 10) passes through. -/
def regSkip : Registry :=
  registerPlugin (registerPlugin [] (functionPlugin "fid" (some 0) "low" (.skipNext .idF)))
    (functionPlugin "fid" (some 10) "high" (.callNext .idF .idF))

/-- Value extension A: replaces `"USD"` with `"EUR"` (sortOrder −10). -/
def valPluginA : CatalystPlugin :=
  valuePlugin "cur" (some (-10)) "to-eur" (.ifEqThen (.str "USD") (.str "EUR"))

/-- Value extension B: appends `"-001"` (sortOrder 0). -/
def valPluginB : CatalystPlugin :=
  valuePlugin "cur" (some 0) "add-suffix" (.appendStr "-001")

/-- A then B registration order. -/
def regValAB : Registry := registerPlugin (registerPlugin [] valPluginA) valPluginB

/-- B then A registration order. -/
def regValBA : Registry := registerPlugin (registerPlugin [] valPluginB) valPluginA

end Pluginizr

namespace Pluginizr

/-! ### Theorems -/

/-- A string is an infix of any concatenation that embeds it. -/
theorem strData_infix_left (pre x : String) :
    x.data <:+: (pre ++ x).data :=
  ⟨pre.data, [], by simp⟩

/-- A string is an infix of any concatenation that embeds it, with
material on both sides. -/
theorem strData_infix_mid (pre x suf : String) :
    x.data <:+: (pre ++ x ++ suf).data :=
  ⟨pre.data, suf.data, by simp⟩

/-- Claim C6: `withPluginsVal` folds the sorted extension list ascending
by sortOrder once at composition time; with extension A (sortOrder −10)
mapping `"USD"` to `"EUR"` and extension B (sortOrder 0) appending
`"-001"`, registered in either order, the composed value for input
`"USD"` is `"EUR-001"` (the composition produces a plain value, not a
thunk, so every later read of the export observes this same value). -/
theorem C6_value_fold_ascending :
    (withPluginsVal .development regValAB [] "cur" (.str "USD")).1 = .str "EUR-001" ∧
    (withPluginsVal .development regValBA [] "cur" (.str "USD")).1 = .str "EUR-001" ∧
    (withPluginsVal .production regValAB [] "cur" (.str "USD")).1 = .str "EUR-001" := by
  decide

/-- Claim C7: the resolver derives canonical ids: default export of
`/pkg-root/src/components/header.tsx` (package `acme`, base import root
`src`) gives `acme/components/header`; named export `Header` of the same
file gives `acme/components/header:Header`; a final `index` segment is
collapsed. -/
theorem C7_resolver_examples :
    getComponentCode fsAcme ["pkg-root", "src", "components", "header.tsx"] "" true =
      .ok "acme/components/header" ∧
    getComponentCode fsAcme ["pkg-root", "src", "components", "header.tsx"] "Header" false =
      .ok "acme/components/header:Header" ∧
    getComponentCode fsAcme ["pkg-root", "src", "components", "header", "index.tsx"] "" true =
      .ok "acme/components/header" := by
  decide

/-- Setting a display name does not change the wrapper chain. -/
theorem wrapperSortOrders_setDisplayName (s : String) (X : ComponentVal) :
    wrapperSortOrders (setDisplayName s X) = wrapperSortOrders X := by
  cases X <;> simp [setDisplayName, wrapperSortOrders]

/-- The `reduce` of `withPluginsFC` nests wrappers so that the list is
read back outermost-last-first: folding a list of plugins over a
component reverses it in the wrapper chain. -/
theorem wrapperSortOrders_foldl (L : List CatalystPlugin) (W : ComponentVal) :
    wrapperSortOrders (L.foldl
      (fun EnhancedComponent plugin =>
        ComponentVal.wrapper (some ("PluginWrapper(" ++ plugin.name ++ ")"))
          plugin EnhancedComponent) W) =
    (L.map sortKey).reverse ++ wrapperSortOrders W := by
  induction L generalizing W with
  | nil => simp
  | cons p L ih => simp [List.foldl_cons, ih, wrapperSortOrders]

/-- On a cache miss (or outside production, where the cache is never
consulted), `getSortedPlugins` computes the kind-filtered, sorted list
and stores it in the cache under the resource id alone. -/
theorem getSortedPlugins_miss (env : NodeEnv) (reg : Registry) (cache : PluginsCache)
    (resourceId : String) (type : EPluginType)
    (hcc : env ≠ .production ∨ cacheHas cache resourceId = false) :
    getSortedPlugins env reg cache resourceId type =
      (sortPlugins (getPlugins env reg resourceId type).1,
       cacheSet cache resourceId (sortPlugins (getPlugins env reg resourceId type).1)) := by
  have h : ¬(env = .production ∧ cacheHas cache resourceId) := by
    rintro ⟨h1, h2⟩
    cases hcc with
    | inl h3 => exact h3 h1
    | inr h3 => rw [h3] at h2; exact Bool.false_ne_true h2
  simp [getSortedPlugins, h]

/-- Claim C1 (counterexample): three component extensions with
sortOrders −10, 0, 10 on resource id `r` compose into the outer-to-inner
wrapper order `[10, 0, −10]` — the lowest sortOrder is innermost, not
outermost as claimed. -/
theorem C1_counterexample :
    wrapperSortOrders (withPluginsFC .development regThree [] "r"
      (.original none "Card")).1 = [10, 0, -10] ∧
    ¬wrapperSortOrders (withPluginsFC .development regThree [] "r"
      (.original none "Card")).1 = [-10, 0, 10] := by
  decide

/-- Claim C1 (amended): `withPluginsFC` folds the extension list sorted
ascending by sortOrder so that the lowest-sortOrder extension becomes the
**innermost** wrapper (it is applied to the original first): the
outer-to-inner wrapper order is the reverse of the ascending sorted
order. -/
theorem C1_lowest_sortOrder_innermost (env : NodeEnv) (reg : Registry)
    (cache : PluginsCache) (component : String) (W : ComponentVal)
    (hcc : env ≠ .production ∨ cacheHas cache component = false) :
    (sortPlugins (getPlugins env reg component .component).1).Sorted
      (fun a b => sortKey a ≤ sortKey b) ∧
    (sortPlugins (getPlugins env reg component .component).1 ≠ [] →
      wrapperSortOrders (withPluginsFC env reg cache component W).1 =
        ((sortPlugins (getPlugins env reg component .component).1).map sortKey).reverse ++
          wrapperSortOrders W) := by
  constructor
  · exact List.sorted_insertionSort _ _
  · intro hne
    have hlen : ¬(sortPlugins (getPlugins env reg component .component).1).length = 0 :=
      fun h => hne (List.length_eq_zero.mp h)
    simp [withPluginsFC, getSortedPlugins_miss env reg cache component .component hcc,
      hlen, wrapperSortOrders_setDisplayName, wrapperSortOrders_foldl]

/-- Claim C1 (witness). -/
theorem C1_lowest_sortOrder_innermost_witness :
    ((.development : NodeEnv) ≠ .production ∨ cacheHas [] "r" = false) ∧
    (sortPlugins (getPlugins .development regThree "r" .component).1 ≠ [] →
      wrapperSortOrders (withPluginsFC .development regThree [] "r"
        (.original none "Card")).1 =
        ((sortPlugins (getPlugins .development regThree "r" .component).1).map
          sortKey).reverse ++ wrapperSortOrders (.original none "Card")) :=
  ⟨Or.inr (by decide),
   (C1_lowest_sortOrder_innermost .development regThree [] "r" (.original none "Card")
     (Or.inr (by decide))).2⟩

/-- Claim C2 (counterexample): with zero registered extensions,
`withPluginsFn` still returns a freshly allocated closure — not the
original function reference. -/
theorem C2_counterexample :
    regGet [] "pkg/fn" = [] ∧
    ¬withPluginsFn "pkg/fn" (.base "orig" .idF) = .base "orig" .idF := by
  decide

/-- Claim C2 (amended): with zero registered extensions of the queried
kind, `withPluginsFC` returns the original component by reference, while
`withPluginsFn` returns a new closure (never the original reference)
whose every invocation delegates to the original: same result value and
same execution trace. -/
theorem C2_zero_extensions_identity (env : NodeEnv) (reg : Registry)
    (cache : PluginsCache) (resourceId : String) (W : ComponentVal)
    (n : String) (f : JsFn) (x : JsVal)
    (hcomp : (getPlugins env reg resourceId .component).1 = [])
    (hfn : (getPlugins env reg resourceId .function).1 = [])
    (hcc : env ≠ .production ∨ cacheHas cache resourceId = false) :
    (withPluginsFC env reg cache resourceId W).1 = W ∧
    ¬withPluginsFn resourceId (.base n f) = .base n f ∧
    (callFn env reg (withPluginsFn resourceId (.base n f)) x cache).1 =
      (callFn env reg (.base n f) x cache).1 ∧
    (callFn env reg (withPluginsFn resourceId (.base n f)) x cache).2.2 =
      (callFn env reg (.base n f) x cache).2.2 := by
  refine ⟨?_, by simp [withPluginsFn], ?_, ?_⟩
  · simp [withPluginsFC, getSortedPlugins_miss env reg cache resourceId .component hcc,
      hcomp, sortPlugins]
  · simp [withPluginsFn, callFn,
      getSortedPlugins_miss env reg cache resourceId .function hcc, hfn, sortPlugins]
  · simp [withPluginsFn, callFn,
      getSortedPlugins_miss env reg cache resourceId .function hcc, hfn, sortPlugins]

/-- Claim C2 (witness). -/
theorem C2_zero_extensions_identity_witness :
    (getPlugins .development [] "pkg/fn" .component).1 = [] ∧
    (getPlugins .development [] "pkg/fn" .function).1 = [] ∧
    ((withPluginsFC .development [] [] "pkg/fn" (.original none "Card")).1 =
        .original none "Card" ∧
      ¬withPluginsFn "pkg/fn" (.base "orig" .idF) = .base "orig" .idF ∧
      (callFn .development [] (withPluginsFn "pkg/fn" (.base "orig" .idF)) (.num 0) []).1 =
        (callFn .development [] (.base "orig" .idF) (.num 0) []).1 ∧
      (callFn .development [] (withPluginsFn "pkg/fn" (.base "orig" .idF)) (.num 0) []).2.2 =
        (callFn .development [] (.base "orig" .idF) (.num 0) []).2.2) :=
  ⟨by decide, by decide,
   C2_zero_extensions_identity .development [] [] "pkg/fn" (.original none "Card")
     "orig" .idF (.num 0) (by decide) (by decide) (Or.inr (by decide))⟩

/-- Claim C5 (counterexample): the cache is keyed by resourceId alone,
so in a production build a query for `(r, Function)` that follows a
query for `(r, Component)` is served the cached component list: it is
not equal to what recomputation for the function kind would produce. -/
theorem C5_counterexample :
    (getSortedPlugins .production regMixed
        ((getSortedPlugins .production regMixed [] "r" .component).2) "r" .function).1 =
      [componentPlugin "r" (some 0) "comp-ext"] ∧
    sortPlugins (getPlugins .production regMixed "r" .function).1 =
      [functionPlugin "r" (some 0) "fn-ext" (.callNext .idF .idF)] ∧
    ¬(getSortedPlugins .production regMixed
        ((getSortedPlugins .production regMixed [] "r" .component).2) "r" .function).1 =
      sortPlugins (getPlugins .production regMixed "r" .function).1 := by
  decide

/-- Claim C5 (amended): `getSortedPlugins` is memoized per resourceId
alone (and only consults the cache in production).  Whenever the cache
is not hit — in every non-production build, and on the first query for a
resourceId in production — it returns exactly the registry's entries of
the queried kind for that resourceId, sorted ascending by sortOrder with
a missing sortOrder treated as 0. -/
theorem C5_sorted_kind_lookup (env : NodeEnv) (reg : Registry) (cache : PluginsCache)
    (resourceId : String) (type : EPluginType)
    (hcc : env ≠ .production ∨ cacheHas cache resourceId = false) :
    (getSortedPlugins env reg cache resourceId type).1.Sorted
      (fun a b => sortKey a ≤ sortKey b) ∧
    (getSortedPlugins env reg cache resourceId type).1.Perm
      ((regGet reg resourceId).filter (fun p => p.type = type)) ∧
    ∀ p ∈ (getSortedPlugins env reg cache resourceId type).1, p.type = type := by
  rw [getSortedPlugins_miss env reg cache resourceId type hcc]
  refine ⟨List.sorted_insertionSort _ _, ?_, ?_⟩
  · have : (getPlugins env reg resourceId type).1 =
        (regGet reg resourceId).filter (fun p => p.type = type) := by
      simp [getPlugins]
    rw [show sortPlugins (getPlugins env reg resourceId type).1 =
      List.insertionSort (fun a b => sortKey a ≤ sortKey b)
        (getPlugins env reg resourceId type).1 from rfl, this]
    exact List.perm_insertionSort _ _
  · intro p hp
    have hp' : p ∈ (getPlugins env reg resourceId type).1 :=
      (List.perm_insertionSort _ _).mem_iff.mp hp
    simp only [getPlugins] at hp'
    exact of_decide_eq_true (List.mem_filter.mp hp').2

/-- Claim C5 (witness). -/
theorem C5_sorted_kind_lookup_witness :
    ((.development : NodeEnv) ≠ .production ∨ cacheHas [] "r" = false) ∧
    ((getSortedPlugins .development regMixed [] "r" .function).1.Sorted
      (fun a b => sortKey a ≤ sortKey b) ∧
    (getSortedPlugins .development regMixed [] "r" .function).1.Perm
      ((regGet regMixed "r").filter (fun p => p.type = .function)) ∧
    ∀ p ∈ (getSortedPlugins .development regMixed [] "r" .function).1,
      p.type = .function) :=
  ⟨Or.inr (by decide),
   C5_sorted_kind_lookup .development regMixed [] "r" .function (Or.inr (by decide))⟩

/-- Claim C9: `getPlugins(resourceId, expectedKind)` returns exactly the
registered entries whose stored kind equals the expected kind; each
differing entry is excluded and, in development builds, produces a
`console.error` diagnostic carrying the descriptor's resourceId, its
name, the expected kind and the actual kind, while lookup still returns
the filtered result. -/
theorem C9_kind_filtered_lookup (env : NodeEnv) (reg : Registry)
    (resourceId : String) (type : EPluginType) :
    (∀ p, p ∈ (getPlugins env reg resourceId type).1 ↔
      p ∈ regGet reg resourceId ∧ p.type = type) ∧
    (env = .development →
      ∀ p ∈ regGet reg resourceId, ¬p.type = type →
        ("Plugin type mismatch for " ++ p.resourceId ++ "(" ++ p.name ++ "). Expected " ++
          pluginTypeStr type ++ ", got " ++ pluginTypeStr p.type ++ ".") ∈
          (getPlugins env reg resourceId type).2) ∧
    (¬env = .development → (getPlugins env reg resourceId type).2 = []) ∧
    (∀ p ∈ regGet reg resourceId, ¬p.type = type →
      p ∉ (getPlugins env reg resourceId type).1) := by
  refine ⟨?_, ?_, ?_, ?_⟩
  · intro p
    simp [getPlugins, List.mem_filter]
  · intro henv p hp hne
    subst henv
    simp only [getPlugins]
    refine List.mem_map.mpr ⟨p, List.mem_filter.mpr ⟨hp, by simpa using hne⟩, ?_⟩
    simp
  · intro henv
    simp [getPlugins, henv]
  · intro p hp hne hmem
    simp only [getPlugins] at hmem
    exact hne (of_decide_eq_true (List.mem_filter.mp hmem).2)

/-- Claim C9 (witness): in a development build, the function-kind entry
registered under `r` is excluded from a component-kind lookup and its
mismatch diagnostic (naming id, name, expected and actual kind) is
emitted. -/
theorem C9_kind_filtered_lookup_witness :
    "Plugin type mismatch for r(fn-ext). Expected component, got function." ∈
      (getPlugins .development regMixed "r" .component).2 ∧
    functionPlugin "r" (some 0) "fn-ext" (.callNext .idF .idF) ∉
      (getPlugins .development regMixed "r" .component).1 := by
  constructor
  · exact (C9_kind_filtered_lookup .development regMixed "r" .component).2.1 rfl
      (functionPlugin "r" (some 0) "fn-ext" (.callNext .idF .idF)) (by decide) (by decide)
  · exact (C9_kind_filtered_lookup .development regMixed "r" .component).2.2.2
      (functionPlugin "r" (some 0) "fn-ext" (.callNext .idF .idF)) (by decide) (by decide)

/-- Appending a plugin to the chain list puts its stage outermost. -/
theorem runChain_concat (L : List CatalystPlugin) (p : CatalystPlugin)
    (inner : JsVal → PluginsCache → JsVal × PluginsCache × List String) :
    runChain (L ++ [p]) inner = chainStep p (runChain L inner) := by
  simp [runChain, List.foldl_append]

/-- The execution trace of a chain invocation: the stage names from the
outermost (highest in the sorted list) down to and including the first
stage that does not invoke its next stage; only when every stage invokes
its next stage does the seeded inner call (trace `T`) execute. -/
theorem runChain_trace (L : List CatalystPlugin)
    (inner : JsVal → PluginsCache → JsVal × PluginsCache × List String)
    (T : List String) (hT : ∀ y c, (inner y c).2.2 = T) (x : JsVal) (cache : PluginsCache) :
    (runChain L inner x cache).2.2 =
      upToFirstSkip L.reverse ++ (if L.any isSkipWrap then [] else T) := by
  induction L using List.reverseRecOn generalizing x cache with
  | nil => simp [runChain, hT x cache, upToFirstSkip]
  | append_singleton L p ih =>
    rw [runChain_concat]
    rcases hpw : p.wrap with _ | w | g
    · -- componentW: the stage cannot invoke the chain
      have hskip : isSkipWrap p = true := by simp [isSkipWrap, hpw]
      simp [chainStep, hpw, upToFirstSkip, hskip]
    · rcases w with ⟨pre, post⟩ | g
      · -- callNext
        have hskip : isSkipWrap p = false := by simp [isSkipWrap, hpw]
        simp only [chainStep, hpw]
        simp [ih (evalJsFn pre x) cache, upToFirstSkip, hskip, List.any_append]
      · -- skipNext
        have hskip : isSkipWrap p = true := by simp [isSkipWrap, hpw]
        simp [chainStep, hpw, upToFirstSkip, hskip]
    · -- valueW
      have hskip : isSkipWrap p = true := by simp [isSkipWrap, hpw]
      simp [chainStep, hpw, upToFirstSkip, hskip]

/-- Every name in `upToFirstSkip M` is the name of a stage of `M`. -/
theorem upToFirstSkip_subset (M : List CatalystPlugin) :
    ∀ s ∈ upToFirstSkip M, s ∈ M.map CatalystPlugin.name := by
  induction M with
  | nil => simp [upToFirstSkip]
  | cons p M ih =>
    by_cases h : isSkipWrap p
    · simp [upToFirstSkip, h]
    · intro s hs
      rw [upToFirstSkip, if_neg h, List.mem_cons] at hs
      rcases hs with rfl | hs
      · simp
      · simp only [List.map_cons, List.mem_cons]
        exact Or.inr (ih s hs)

/-- If the stage named `p.name` (which does not invoke its next stage)
executes, then every stage of the chain prefix above it invokes its next
stage, and the trace is exactly those stages followed by `p.name`. -/
theorem upToFirstSkip_skip_mem (A B : List CatalystPlugin) (p : CatalystPlugin)
    (hp : isSkipWrap p = true) (hnA : p.name ∉ A.map CatalystPlugin.name)
    (hmem : p.name ∈ upToFirstSkip (A ++ p :: B)) :
    upToFirstSkip (A ++ p :: B) = A.map CatalystPlugin.name ++ [p.name] := by
  induction A with
  | nil => simp [upToFirstSkip, hp]
  | cons a A ih =>
    by_cases h : isSkipWrap a
    · exfalso
      rw [List.cons_append, upToFirstSkip, if_pos h] at hmem
      simp only [List.mem_singleton] at hmem
      exact hnA (by simp [hmem])
    · have hn : p.name ∉ A.map CatalystPlugin.name := fun hx => hnA (by simp [hx])
      have hm : p.name ∈ upToFirstSkip (A ++ p :: B) := by
        rw [List.cons_append, upToFirstSkip, if_neg h, List.mem_cons] at hmem
        rcases hmem with heq | hmm
        · exact (hnA (by simp [heq])).elim
        · exact hmm
      rw [List.cons_append, upToFirstSkip, if_neg h, ih hn hm]
      simp

/-- Claim C3 (counterexample): `low` (sortOrder 0) never invokes its
inner stage, yet `high` (sortOrder 10) — an extension with a strictly
higher sortOrder — executes on the same invocation (it runs first, as
the outermost stage, and hands `low` its next-stage callable). -/
theorem C3_counterexample :
    isSkipWrap (functionPlugin "fid" (some 0) "low" (.skipNext .idF)) = true ∧
    sortKey (functionPlugin "fid" (some 0) "low" (.skipNext .idF)) <
      sortKey (functionPlugin "fid" (some 10) "high" (.callNext .idF .idF)) ∧
    (callFn .development regSkip (withPluginsFn "fid" (.base "orig" .idF)) (.num 1) []).2.2 =
      ["high", "low"] ∧
    "high" ∈
      (callFn .development regSkip (withPluginsFn "fid" (.base "orig" .idF)) (.num 1) []).2.2 := by
  decide

/-- Claim C3 (amended): in an invocation of a composed function, a stage
that does not invoke the next-stage callable it receives suppresses
every extension that sits **below** it in the ascending sorted chain —
in particular every extension with a strictly lower sortOrder — and the
original function; the stages above it (higher sortOrder) have already
executed. -/
theorem C3_skip_suppresses_lower (env : NodeEnv) (reg : Registry) (cache : PluginsCache)
    (fid n : String) (f : JsFn) (x : JsVal) (L : List CatalystPlugin)
    (cache₂ : PluginsCache) (L₁ L₂ : List CatalystPlugin) (p : CatalystPlugin)
    (hL : getSortedPlugins env reg cache fid .function = (L, cache₂))
    (hsplit : L = L₁ ++ p :: L₂)
    (hskip : isSkipWrap p = true)
    (hnodup : (L.map CatalystPlugin.name).Nodup)
    (hS : L.Sorted fun a b => sortKey a ≤ sortKey b)
    (hn : n ∉ L.map CatalystPlugin.name)
    (hptr : p.name ∈ (callFn env reg (withPluginsFn fid (.base n f)) x cache).2.2) :
    (∀ q ∈ L₁, q.name ∉ (callFn env reg (withPluginsFn fid (.base n f)) x cache).2.2) ∧
    n ∉ (callFn env reg (withPluginsFn fid (.base n f)) x cache).2.2 ∧
    (∀ q ∈ L, sortKey q < sortKey p →
      q.name ∉ (callFn env reg (withPluginsFn fid (.base n f)) x cache).2.2) := by
  have hLne : L ≠ [] := by rw [hsplit]; simp
  have hlen : ¬L.length = 0 := fun h => hLne (List.length_eq_zero.mp h)
  have htr : (callFn env reg (withPluginsFn fid (.base n f)) x cache).2.2 =
      (runChain L (callFn env reg (.base n f)) x cache₂).2.2 := by
    simp [withPluginsFn, callFn, hL, hlen]
  have hTbase : ∀ y c, (callFn env reg (FnArtifact.base n f) y c).2.2 = [n] :=
    fun _ _ => rfl
  have hany : L.any isSkipWrap = true :=
    List.any_eq_true.mpr ⟨p, by rw [hsplit]; simp, hskip⟩
  have htrace : (runChain L (callFn env reg (.base n f)) x cache₂).2.2 =
      upToFirstSkip L.reverse := by
    rw [runChain_trace L _ [n] hTbase x cache₂, hany]
    simp
  have hmapsplit : L.map CatalystPlugin.name =
      L₁.map CatalystPlugin.name ++ p.name :: L₂.map CatalystPlugin.name := by
    rw [hsplit]; simp
  have hnodup' := hmapsplit ▸ hnodup
  obtain ⟨hnd₁, hnd₂, hdisj⟩ := List.nodup_append.mp hnodup'
  have hp1 : p.name ∉ L₁.map CatalystPlugin.name := fun hx => hdisj hx (by simp)
  have hp2 : p.name ∉ L₂.map CatalystPlugin.name := (List.nodup_cons.mp hnd₂).1
  have hrev : L.reverse = L₂.reverse ++ p :: L₁.reverse := by rw [hsplit]; simp
  have hrev2 : p.name ∉ (L₂.reverse).map CatalystPlugin.name := by simpa using hp2
  have hpm : p.name ∈ upToFirstSkip (L₂.reverse ++ p :: L₁.reverse) := by
    have h := hptr
    rw [htr, htrace, hrev] at h
    exact h
  have htrfin : (callFn env reg (withPluginsFn fid (.base n f)) x cache).2.2 =
      (L₂.reverse).map CatalystPlugin.name ++ [p.name] := by
    rw [htr, htrace, hrev, upToFirstSkip_skip_mem _ _ p hskip hrev2 hpm]
  have main1 : ∀ q ∈ L₁,
      q.name ∉ (callFn env reg (withPluginsFn fid (.base n f)) x cache).2.2 := by
    intro q hq hqmem
    rw [htrfin] at hqmem
    rcases List.mem_append.mp hqmem with hmm | hmm
    · have hq2 : q.name ∈ L₂.map CatalystPlugin.name := by simpa using hmm
      exact hdisj (List.mem_map_of_mem _ hq) (by simp [hq2])
    · have hqp : q.name = p.name := by simpa using hmm
      exact hp1 (hqp ▸ List.mem_map_of_mem _ hq)
  refine ⟨main1, ?_, ?_⟩
  · intro hnm
    rw [htrfin] at hnm
    rcases List.mem_append.mp hnm with hmm | hmm
    · have h2 : n ∈ L₂.map CatalystPlugin.name := by simpa using hmm
      exact hn (by rw [hmapsplit]; simp [h2])
    · have h2 : n = p.name := by simpa using hmm
      exact hn (by rw [hmapsplit]; simp [h2])
  · intro q hq hlt
    rw [hsplit] at hq
    rcases List.mem_append.mp hq with hq1 | hq2
    · exact main1 q hq1
    · rcases List.mem_cons.mp hq2 with rfl | hq3
      · exact absurd hlt (lt_irrefl _)
      · have hle : sortKey p ≤ sortKey q := by
          rw [hsplit] at hS
          have h := (List.pairwise_append.mp hS).2.1
          exact (List.pairwise_cons.mp h).1 q hq3
        exact absurd hlt (not_lt.mpr hle)

/-- Claim C3 (witness): the concrete two-stage chain of
`C3_counterexample` instantiates the amended suppression theorem. -/
theorem C3_skip_suppresses_lower_witness :
    (∀ q ∈ ([] : List CatalystPlugin),
      q.name ∉ (callFn .development regSkip
        (withPluginsFn "fid" (.base "orig" .idF)) (.num 1) []).2.2) ∧
    "orig" ∉ (callFn .development regSkip
      (withPluginsFn "fid" (.base "orig" .idF)) (.num 1) []).2.2 ∧
    (∀ q ∈ [functionPlugin "fid" (some 0) "low" (.skipNext .idF),
        functionPlugin "fid" (some 10) "high" (.callNext .idF .idF)],
      sortKey q < sortKey (functionPlugin "fid" (some 0) "low" (.skipNext .idF)) →
      q.name ∉ (callFn .development regSkip
        (withPluginsFn "fid" (.base "orig" .idF)) (.num 1) []).2.2) :=
  C3_skip_suppresses_lower .development regSkip [] "fid" "orig" .idF (.num 1)
    [functionPlugin "fid" (some 0) "low" (.skipNext .idF),
      functionPlugin "fid" (some 10) "high" (.callNext .idF .idF)]
    [("fid", [functionPlugin "fid" (some 0) "low" (.skipNext .idF),
      functionPlugin "fid" (some 10) "high" (.callNext .idF .idF)])]
    [] [functionPlugin "fid" (some 10) "high" (.callNext .idF .idF)]
    (functionPlugin "fid" (some 0) "low" (.skipNext .idF))
    (by decide) (by decide) (by decide) (by decide) (by decide) (by decide) (by decide)

/-- When no resource id has registered extensions, every per-export wrap
is a no-op (provided the manifest walk succeeds, so that resource-id
resolution does not throw). -/
theorem wrapExportedValue_none (fs : FileSystem) (plz : PluginizedMap) (file : PathT)
    (hplz : ∀ c, plz c = none)
    (hpkg : findUp fs "package.json" (pathDirname file) ≠ none)
    (node : Expr) (identifierName : String) (isDefaultExport : Bool) :
    wrapExportedValue fs plz file node identifierName isDefaultExport = .ok none := by
  cases hfu : findUp fs "package.json" (pathDirname file) with
  | none => exact absurd hfu hpkg
  | some pj => simp [wrapExportedValue, getComponentCode, hfu, hplz]

/-- The visiting pass leaves everything untouched when no export wrap
fires. -/
theorem pluginizrLoop_id (fs : FileSystem) (plz : PluginizedMap) (file : PathT)
    (hplz : ∀ c, plz c = none)
    (hpkg : findUp fs "package.json" (pathDirname file) ≠ none) :
    ∀ (fuel i : Nat) (prog : Program) (imps : List Stmt) (plgd : Bool),
      pluginizrLoop fs plz file fuel i prog imps plgd = .ok (prog, imps, plgd) := by
  intro fuel
  have hw := wrapExportedValue_none fs plz file hplz hpkg
  induction fuel with
  | zero => intro i prog imps plgd; rfl
  | succ fuel ih =>
    intro i prog imps plgd
    cases hgi : prog[i]? with
    | none => simp [pluginizrLoop, hgi]
    | some stmt =>
      cases stmt with
      | importDecl d nm src => simp [pluginizrLoop, hgi, ih]
      | varDecl m init => simp [pluginizrLoop, hgi, ih]
      | exportVarDecl m init => simp [pluginizrLoop, hgi, hw, ih]
      | funcDecl m hasJSX blockBody => simp [pluginizrLoop, hgi, ih]
      | exportFuncDecl m hasJSX blockBody => simp [pluginizrLoop, hgi, hw, ih]
      | exportDefaultFunc hasJSX blockBody => simp [pluginizrLoop, hgi, hw, ih]
      | exportDefaultExpr e =>
        cases e with
        | ident nm =>
          cases hb : findBindingIdx prog nm with
          | none => simp [pluginizrLoop, hgi, hb, ih]
          | some j =>
            cases hgj : prog[j]? with
            | none => simp [pluginizrLoop, hgi, hb, hgj, ih]
            | some st2 => cases st2 <;> simp [pluginizrLoop, hgi, hb, hgj, hw, ih]
        | numLit k => simp [pluginizrLoop, hgi, hw, ih]
        | strLit s => simp [pluginizrLoop, hgi, hw, ih]
        | arrowFn hasJSX blockBody => simp [pluginizrLoop, hgi, hw, ih]
        | funcExpr hasJSX blockBody => simp [pluginizrLoop, hgi, hw, ih]
        | call c pr a => simp [pluginizrLoop, hgi, hw, ih]

/-- Claim C4 (counterexample): the rewriter is not idempotent.  One pass
over `export default 5` (whose resource id has registered extensions)
produces the wrapped module; a second pass wraps the already-wrapped
export again — `withValuePlugins(h, withValuePlugins(h, 5))` — and adds
a duplicate generated-module import, so `rewrite(rewrite(x)) ≠
rewrite(x)`. -/
theorem C4_counterexample :
    pluginizrFn fsDemo plzDemo fileDemo progDemo = .ok progDemoOnce ∧
    pluginizrFn fsDemo plzDemo fileDemo progDemoOnce = .ok progDemoTwice ∧
    ¬progDemoTwice = progDemoOnce := by
  decide

/-- Claim C4 (amended): the rewriter has no already-wrapped detection;
`rewrite(rewrite(x)) = rewrite(x)` holds only in the degenerate case in
which the rewrite changes nothing.  In particular, whenever no export of
a module has registered extensions (and the manifest walk succeeds), the
module is returned unchanged, and re-running the rewriter is then a
no-op. -/
theorem C4_identity_without_extensions (fs : FileSystem) (plz : PluginizedMap)
    (file : PathT) (prog : Program)
    (hplz : ∀ c, plz c = none)
    (hpkg : findUp fs "package.json" (pathDirname file) ≠ none) :
    pluginizrFn fs plz file prog = .ok prog ∧
    (pluginizrFn fs plz file prog).bind (pluginizrFn fs plz file) =
      pluginizrFn fs plz file prog := by
  have h : pluginizrFn fs plz file prog = .ok prog := by
    simp [pluginizrFn, pluginizrLoop_id fs plz file hplz hpkg]
  exact ⟨h, by rw [h]; simpa using h⟩

/-- Claim C4 (witness). -/
theorem C4_identity_without_extensions_witness :
    pluginizrFn fsDemo (fun _ => none) fileDemo progDemo = .ok progDemo ∧
    (pluginizrFn fsDemo (fun _ => none) fileDemo progDemo).bind
      (pluginizrFn fsDemo (fun _ => none) fileDemo) =
      pluginizrFn fsDemo (fun _ => none) fileDemo progDemo :=
  C4_identity_without_extensions fsDemo (fun _ => none) fileDemo progDemo
    (fun _ => rfl) (by decide)

/-- Claim C8: when the upward walk from a module's directory reaches the
filesystem root without finding a `package.json`, resource-id resolution
throws a fatal error whose message names the offending file, and the
rewrite of a module whose export processing reaches the resolver aborts
with that error instead of producing output. -/
theorem C8_missing_manifest_fatal (fs : FileSystem) (file : PathT)
    (identifierName : String) (isDefaultExport : Bool) (plz : PluginizedMap)
    (hfu : findUp fs "package.json" (pathDirname file) = none) :
    getComponentCode fs file identifierName isDefaultExport =
      .error ("No package.json was found for " ++ pathToString file) ∧
    (pathToString file).data <:+:
      ("No package.json was found for " ++ pathToString file).data ∧
    pluginizrFn fs plz file [.exportDefaultExpr (.numLit 5)] =
      .error ("No package.json was found for " ++ pathToString file) := by
  refine ⟨by simp [getComponentCode, hfu], strData_infix_left _ _, ?_⟩
  simp [pluginizrFn, pluginizrLoop, wrapExportedValue, getComponentCode, hfu]

/-- Claim C8 (witness). -/
theorem C8_missing_manifest_fatal_witness :
    findUp fsBare "package.json" (pathDirname ["a", "b.ts"]) = none ∧
    (getComponentCode fsBare ["a", "b.ts"] "" true =
      .error ("No package.json was found for " ++ pathToString ["a", "b.ts"]) ∧
    (pathToString ["a", "b.ts"]).data <:+:
      ("No package.json was found for " ++ pathToString ["a", "b.ts"]).data ∧
    pluginizrFn fsBare (fun _ => none) ["a", "b.ts"] [.exportDefaultExpr (.numLit 5)] =
      .error ("No package.json was found for " ++ pathToString ["a", "b.ts"])) :=
  ⟨by decide, C8_missing_manifest_fatal fsBare ["a", "b.ts"] "" true (fun _ => none)
    (by decide)⟩

/-- Claim C10: the opt-out test fires only when the directive is the
whole file.  A file that is exactly `"use no-plugins";` is passed
through, but a module whose **first statement** is the directive and
which contains further statements fails the regex (no multiline flag:
`^`/`$` anchor to the whole input), is handed to `pluginizr`, and is
rewritten — not returned unchanged as the claim requires. -/
theorem C10_directive_only_whole_file :
    useNoPluginsDirective "\"use no-plugins\";" = true ∧
    loader fsDemo plzDemo "/pkg/src/file.ts" fileDemo "\"use no-plugins\";" [] =
      .passthrough ∧
    useNoPluginsDirective "\"use no-plugins\";\nexport default 5;" = false ∧
    loader fsDemo plzDemo "/pkg/src/file.ts" fileDemo
      "\"use no-plugins\";\nexport default 5;" progDemo = .transformed progDemoOnce ∧
    ¬progDemoOnce = progDemo := by
  decide

end Pluginizr
